import Mathlib

set_option maxRecDepth 8000

/-!
# Verification of `blobmanager.py` (`RedisBlobManager`)

A shallow embedding of the repository's blob manager: fixed-size blocks are
stored deduplicated in blob files, with metadata (block records, the hash
set, hash locations and the allocation cursor) kept in a redis keyspace.
The embedding follows the Python source line by line: the dynamically typed
arguments are modelled by `PyVal`, the redis database by an association
list from string keys to typed values, the blob directory by an association
list from blob numbers to byte lists, and each public method by a function
returning the Python outcome (a returned status code or a raised exception)
together with the store it leaves behind.
-/

namespace BlobManager

/-- Python-level dynamic values appearing as arguments of the public
operations: `numpy.uint64`, `numpy.uint32`, a plain `int`, and `bytearray`
(a list of byte values). -/
inductive PyVal where
  | u64 (n : Nat)
  | u32 (n : Nat)
  | int (n : Int)
  | bytes (b : List Nat)
deriving DecidableEq, Repr

def PyVal.isU64 : PyVal → Bool | .u64 _ => true | _ => false
def PyVal.isU32 : PyVal → Bool | .u32 _ => true | _ => false
def PyVal.isBytes : PyVal → Bool | .bytes _ => true | _ => false

/-- `len(v)`: defined for `bytearray`; `TypeError` (`none`) otherwise. -/
def pyLen? : PyVal → Option Nat
  | .bytes b => some b.length
  | _ => none

/-- `str(v)` as used to build redis keys (`str(block_id)`): the decimal
representation for the numeric kinds.  (`str` of a `bytearray` renders as
`bytearray(b'...')`; only its non-numeric shape matters here.) -/
def pyStr : PyVal → String
  | .u64 n => Nat.repr n
  | .u32 n => Nat.repr n
  | .int n => toString n
  | .bytes _ => "bytearray"

/-- `n != v` for `len(block_data) != self.block_size`: numeric comparison
against the numeric kinds; comparing with a non-number is `True`. -/
def pyNe (n : Nat) : PyVal → Bool
  | .u64 m => n != m
  | .u32 m => n != m
  | .int m => (n : Int) != m
  | .bytes _ => true

/-- `n >= v` for `blob_index + 1 >= self.blob_size`; `none` = `TypeError`. -/
def pyGe (n : Nat) : PyVal → Option Bool
  | .u64 m => some (decide (m ≤ n))
  | .u32 m => some (decide (m ≤ n))
  | .int m => some (decide (m ≤ (n : Int)))
  | .bytes _ => none

/-- The numeric value of `self.block_size` as used by `seek`/`read`. -/
def pyToNat? : PyVal → Option Nat
  | .u64 n => some n
  | .u32 n => some n
  | .int n => if 0 ≤ n then some n.toNat else none
  | .bytes _ => none

/-- The Python exceptions distinguished by the module. -/
inductive PyErr where
  | valueError | attributeError | indexError | keyError | typeError | other
deriving DecidableEq, Repr

/-- A value stored at a redis key: a string (the `block:<id>` records), an
integer counter (`next_blob`, `next_blob_index`), a set (`hashes`), or a
list (`hash:<digest>`, holding `[blob, blob_index]`). -/
inductive RVal where
  | str (v : String)
  | num (n : Nat)
  | set (hs : List String)
  | list (xs : List Nat)
deriving DecidableEq, Repr

/-- Association-list lookup for the keyspaces. -/
def alookup {α β : Type} [DecidableEq α] : List (α × β) → α → Option β
  | [], _ => none
  | (k, v) :: t, k' => if k = k' then some v else alookup t k'

/-- Remove every binding of a key. -/
def aerase {α β : Type} [DecidableEq α] : List (α × β) → α → List (α × β)
  | [], _ => []
  | (k, v) :: t, k' => if k = k' then aerase t k' else (k, v) :: aerase t k'

/-- (Re)bind a key. -/
def aset {α β : Type} [DecidableEq α] (l : List (α × β)) (k : α) (v : β) :
    List (α × β) :=
  (k, v) :: aerase l k

/-- The persistent store: the redis keyspace plus the blob files on disk
(the file `blob_dir/<blob>`, keyed by the blob number). -/
structure RStore where
  kv : List (String × RVal)
  files : List (Nat × List Nat)
deriving DecidableEq, Repr

/-- `EXISTS key` over the whole keyspace. -/
def rexists (s : RStore) (k : String) : Bool := (alookup s.kv k).isSome

/-- `SET key <string>`. -/
def setStr (s : RStore) (k v : String) : RStore :=
  { s with kv := aset s.kv k (.str v) }

/-- `SET key <integer>`. -/
def setNum (s : RStore) (k : String) (n : Nat) : RStore :=
  { s with kv := aset s.kv k (.num n) }

/-- `SETNX key <integer>`. -/
def setnxNum (s : RStore) (k : String) (n : Nat) : RStore :=
  if rexists s k then s else setNum s k n

/-- Read an integer-valued key (`int(client.get(key))`). -/
def getNum? (s : RStore) (k : String) : Option Nat :=
  match alookup s.kv k with
  | some (.num n) => some n
  | _ => none

/-- `INCR key` (a missing key counts as `0`). -/
def incrNum (s : RStore) (k : String) : RStore :=
  match getNum? s k with
  | some n => setNum s k (n + 1)
  | none => setNum s k 1

/-- `SISMEMBER key member`. -/
def sismember (s : RStore) (k h : String) : Bool :=
  match alookup s.kv k with
  | some (.set hs) => hs.contains h
  | _ => false

/-- `SADD key member`. -/
def sadd (s : RStore) (k h : String) : RStore :=
  match alookup s.kv k with
  | some (.set hs) =>
    { s with kv := aset s.kv k (.set (if hs.contains h then hs else hs ++ [h])) }
  | _ => { s with kv := aset s.kv k (.set [h]) }

/-- `RPUSH key a b` (two values, as in `rpush('hash:…', blob, blob_index)`). -/
def rpush2 (s : RStore) (k : String) (a b : Nat) : RStore :=
  match alookup s.kv k with
  | some (.list xs) => { s with kv := aset s.kv k (.list (xs ++ [a, b])) }
  | _ => { s with kv := aset s.kv k (.list [a, b]) }

/-- `LINDEX key i`. -/
def lindex? (s : RStore) (k : String) (i : Nat) : Option Nat :=
  match alookup s.kv k with
  | some (.list xs) => xs.get? i
  | _ => none

/-- Contents of the blob file `b` (an absent file reads as empty). -/
def fileOf (s : RStore) (b : Nat) : List Nat := (alookup s.files b).getD []

/-- `open(path, 'ba'); fd.write(data)`: append to the blob file. -/
def fappend (s : RStore) (b : Nat) (d : List Nat) : RStore :=
  { s with files := aset s.files b (fileOf s b ++ d) }

/-- `FLUSHALL`: empties the redis database; the blob files on disk remain. -/
def flushall (s : RStore) : RStore := { s with kv := [] }

/-- The Python object's attribute state: `block_size` and `blob_size` are
set by `BaseBlobManager.init`, `redis_client` by `RedisBlobManager.init`;
all are absent on a freshly constructed manager. -/
structure Manager where
  block_size : Option PyVal := none
  blob_size : Option PyVal := none
  client : Bool := false
deriving DecidableEq, Repr

/-- `BaseBlobManager.init` body: the validation
`if type(block_size) != uint64 and type(blob_size) != uint32: raise
ValueError` (note the `and`), then the attribute assignments. -/
def baseInit (m : Manager) (block_size blob_size : PyVal) :
    Except PyErr Manager :=
  if !block_size.isU64 && !blob_size.isU32 then .error .valueError
  else .ok { m with block_size := some block_size, blob_size := some blob_size }

/-- `BaseBlobManager.put_block` body: the validation
`if type(block_id) != uint64 and type(block_data) != bytearray` (again
`and`), then `if len(block_data) != self.block_size: raise AttributeError`
(`len` of a non-sequence is a `TypeError`; an unset `self.block_size` is an
`AttributeError`). -/
def basePut (m : Manager) (block_id block_data : PyVal) : Except PyErr Unit :=
  if !block_id.isU64 && !block_data.isBytes then .error .valueError
  else
    match pyLen? block_data with
    | none => .error .typeError
    | some l =>
      match m.block_size with
      | none => .error .attributeError
      | some bs => if pyNe l bs then .error .attributeError else .ok ()

/-- `BaseBlobManager.get_block` body: the same `and`-joined validation. -/
def baseGet (block_id block_data : PyVal) : Except PyErr Unit :=
  if !block_id.isU64 && !block_data.isBytes then .error .valueError else .ok ()

/-- `RedisBlobManager.init` (the undecorated body): validate and set the
attributes, connect, `flushall()` (the line marked `# REMOVE IT`), then
`SETNX next_blob 0` and `SETNX next_blob_index 0`. -/
def execInit (m : Manager) (s : RStore) (block_size blob_size : PyVal) :
    Except PyErr Int × Manager × RStore :=
  match baseInit m block_size blob_size with
  | .error e => (.error e, m, s)
  | .ok m1 =>
    let m2 := { m1 with client := true }
    let s1 := flushall s
    let s2 := setnxNum s1 "next_blob" 0
    let s3 := setnxNum s2 "next_blob_index" 0
    (.ok 0, m2, s3)

/-- `RedisBlobManager._put_block_to_blob`: the allocation transaction (read
the cursor, advance it — wrapping when `blob_index + 1 >= self.blob_size` —
write the block record, add the hash to the set, push `[blob, blob_index]`
onto the hash-location list) followed by the file append.  Sequential
semantics: the commands apply in program order. -/
def putToBlob (m : Manager) (s : RStore) (block_id : PyVal) (b : List Nat)
    (h : String) : Except PyErr Int × RStore :=
  match getNum? s "next_blob", getNum? s "next_blob_index" with
  | some blob, some idx =>
    match m.blob_size with
    | none => (.error .attributeError, s)
    | some cap =>
      match pyGe (idx + 1) cap with
      | none => (.error .typeError, s)
      | some wrap =>
        let s1 := if wrap then setNum (incrNum s "next_blob") "next_blob_index" 0
                  else incrNum s "next_blob_index"
        let s2 := setStr s1 ("block:" ++ pyStr block_id) h
        let s3 := sadd s2 "hashes" h
        let s4 := rpush2 s3 ("hash:" ++ h) blob idx
        (.ok 0, fappend s4 blob b)
  | _, _ => (.error .typeError, s)

/-- `RedisBlobManager.put_block` (the undecorated body), parameterized by
the content hasher `H` (`hashlib.sha1(block_data).hexdigest()`): validate,
check `self.redis_client.exists(block_id)` — note: the *bare* key
`str(block_id)`, not the `block:<id>` record key — then either the dedup
fast path (`SET block:<id> <hash>`) or the allocation slow path. -/
def execPut (H : List Nat → String) (m : Manager) (s : RStore)
    (block_id block_data : PyVal) : Except PyErr Int × RStore :=
  match basePut m block_id block_data with
  | .error e => (.error e, s)
  | .ok () =>
    if !m.client then (.error .attributeError, s)
    else if rexists s (pyStr block_id) then (.error .indexError, s)
    else
      match block_data with
      | .bytes b =>
        let h := H b
        if sismember s "hashes" h then
          (.ok 0, setStr s ("block:" ++ pyStr block_id) h)
        else putToBlob m s block_id b h
      | _ => (.error .typeError, s)

/-- `RedisBlobManager.get_block` (the undecorated body).  The store is
never written; the possibly extended output buffer is returned.  A missing
or falsy `block:<id>` record raises `KeyError`; missing hash-location list
entries make `int(None)` raise `TypeError`; a missing blob file makes
`open` raise `FileNotFoundError` (embedded as `PyErr.other`). -/
def execGet (m : Manager) (s : RStore) (block_id block_data : PyVal) :
    Except PyErr Int × PyVal :=
  match baseGet block_id block_data with
  | .error e => (.error e, block_data)
  | .ok () =>
    if !m.client then (.error .attributeError, block_data)
    else
      match alookup s.kv ("block:" ++ pyStr block_id) with
      | some (.str h) =>
        if h = "" then (.error .keyError, block_data)
        else
          match lindex? s ("hash:" ++ h) 0, lindex? s ("hash:" ++ h) 1 with
          | some blob, some idx =>
            (match alookup s.files blob with
             | none => (.error .other, block_data)
             | some content =>
               match m.block_size with
               | none => (.error .attributeError, block_data)
               | some bsv =>
                 match pyToNat? bsv with
                 | none => (.error .typeError, block_data)
                 | some bs =>
                   let ba := (content.drop (bs * idx)).take bs
                   match block_data with
                   | .bytes ob => (.ok 0, .bytes (ob ++ ba))
                   | _ => (.error .attributeError, block_data))
          | _, _ => (.error .typeError, block_data)
      | some _ => (.error .other, block_data)
      | none => (.error .keyError, block_data)

/-- The effect of writing `@functools.wraps` *bare* above `return_handler`:
`return_handler` becomes `functools.partial(update_wrapper,
wrapped=<return_handler body>)`, and `update_wrapper` returns its first
argument (the decorated method) unchanged apart from copied metadata.  So
`@return_handler` leaves each method exactly as it was: the `try/except`
inside `return_handler`'s `wrapper` closure is never installed. -/
def wrapsDecorated {α : Type} (f : α) : α := f

/-- The exception-to-code mapping of the `wrapper` closure inside
`return_handler` — the mapping the decorator was *intended* to install:
`ValueError ↦ 1`, `AttributeError ↦ 2`, `IndexError ↦ 3`, anything
else ↦ `100`. -/
def return_handler_map : Except PyErr Int → Int
  | .ok n => n
  | .error .valueError => 1
  | .error .attributeError => 2
  | .error .indexError => 3
  | .error _ => 100

/-- The deployed `RedisBlobManager.init`. -/
def init_deployed :
    Manager → RStore → PyVal → PyVal → Except PyErr Int × Manager × RStore :=
  wrapsDecorated execInit

/-- The deployed `RedisBlobManager.put_block`. -/
def put_block_deployed (H : List Nat → String) :
    Manager → RStore → PyVal → PyVal → Except PyErr Int × RStore :=
  wrapsDecorated (execPut H)

/-- The deployed `RedisBlobManager.get_block`. -/
def get_block_deployed :
    Manager → RStore → PyVal → PyVal → Except PyErr Int × PyVal :=
  wrapsDecorated execGet

/-- A freshly constructed `RedisBlobManager()`. -/
def freshMgr : Manager := {}

/-- The manager after a successful `init(uint64 bs, uint32 c)`. -/
def mkMgr (bs c : Nat) : Manager :=
  { block_size := some (.u64 bs), blob_size := some (.u32 c), client := true }

/-- The store a successful `init` leaves behind in an empty environment:
the flushed keyspace holding only the `(0, 0)` allocation cursor. -/
def initStore : RStore :=
  { kv := [("next_blob_index", .num 0), ("next_blob", .num 0)], files := [] }

/-- A concrete stand-in hasher for executable scenarios: `'h'` followed by
one decimal digit per byte. -/
def Hdemo (d : List Nat) : String :=
  ⟨'h' :: d.map (fun n => Char.ofNat (48 + n % 10))⟩

/-- An injective, never-empty stand-in hasher, for instantiating theorems
whose truth rests on the hasher being collision-free. -/
def Hinj (d : List Nat) : String :=
  ⟨'h' :: List.replicate (Encodable.encode d) 'a'⟩

/-- What the round-trip arguments assume of `hashlib.sha1(...).hexdigest()`:
it is collision-free (on the data actually stored) and never produces the
empty (falsy) string. -/
def GoodHash (H : List Nat → String) : Prop :=
  Function.Injective H ∧ ∀ d, H d ≠ ""

/-- `true` iff the call returned (rather than raised). -/
def isOk {α : Type} : Except PyErr α → Bool
  | .ok _ => true
  | .error _ => false

/-- The key shapes the manager ever writes. -/
def GoodKey (k : String) : Prop :=
  k = "next_blob" ∨ k = "next_blob_index" ∨ k = "hashes" ∨
    (∃ t, k = "block:" ++ t) ∨ (∃ t, k = "hash:" ++ t)

/-- The `block_size`-byte slice at slot `i`, as `get_block` reads it:
`seek(block_size * blob_index); read(block_size)`. -/
def slice (bs i : Nat) (l : List Nat) : List Nat := (l.drop (bs * i)).take bs

/-- The cursor advance committed by the allocation transaction when the
cursor was read as `(_, I)`: wrap to a fresh blob when
`blob_index + 1 >= blob_size`, otherwise step the slot index. -/
def advCursor (s : RStore) (c I : Nat) : RStore :=
  if c ≤ I + 1 then setNum (incrNum s "next_blob") "next_blob_index" 0
  else incrNum s "next_blob_index"

/-- The store `_put_block_to_blob` leaves behind when the cursor was read
as `(B, I)`: advance the cursor, write the block record, add the digest to
`hashes`, push `[B, I]` onto the location list, append the bytes to blob
file `B`. -/
def slowPost (s : RStore) (key h : String) (b : List Nat) (B I c : Nat) :
    RStore :=
  fappend (rpush2 (sadd (setStr (advCursor s c I) key h) "hashes" h)
    ("hash:" ++ h) B I) B b

/-- The structural invariant of a store reachable from `init`, with the
allocation cursor at `(B, I)`:
the cursor keys hold `(B, I)` with `I < blob_capacity`; the current blob
file holds exactly `I` blocks, earlier blobs are full and later blobs
untouched; all keys are well shaped and `hashes` (when present) is a set;
every member `h` of `hashes` has a `hash:<h>` location list `[b, i]`
pointing below the cursor at a written blob file whose slot `i` hashes
back to `h`; a hash not in `hashes` has no location list; and every block
record's digest is a member of `hashes`. -/
structure InvAt (H : List Nat → String) (bs c B I : Nat) (s : RStore) :
    Prop where
  hB : getNum? s "next_blob" = some B
  hI : getNum? s "next_blob_index" = some I
  hIc : I < c
  hcur : (fileOf s B).length = I * bs
  hfull : ∀ b, b < B → (fileOf s b).length = c * bs
  hempty : ∀ b, B < b → (fileOf s b).length = 0
  hkeys : ∀ p ∈ s.kv, GoodKey p.1
  hsetShape : alookup s.kv "hashes" = none ∨
    ∃ hs, alookup s.kv "hashes" = some (.set hs)
  hloc : ∀ h, sismember s "hashes" h = true →
    ∃ b i content, alookup s.kv ("hash:" ++ h) = some (.list [b, i]) ∧
      alookup s.files b = some content ∧ i < c ∧
      (b < B ∨ b = B ∧ i < I) ∧ H (slice bs i content) = h
  hnone : ∀ h, sismember s "hashes" h = false →
    alookup s.kv ("hash:" ++ h) = none
  hrec : ∀ t h, alookup s.kv ("block:" ++ t) = some (.str h) →
    sismember s "hashes" h = true

def Inv (H : List Nat → String) (bs c : Nat) (s : RStore) : Prop :=
  ∃ B I, InvAt H bs c B I s

/-- The stores reachable from a successful `init(uint64 bs, uint32 c)` in
an empty environment by successful `put_block` calls.  (A failing
`put_block` raises before its first write, and `get_block` never writes,
so successful puts are the only state transitions.) -/
inductive Reached (H : List Nat → String) (bs c : Nat) : RStore → Prop where
  | base : Reached H bs c initStore
  | step {s s' : RStore} {id data : PyVal} {n : Int} :
      Reached H bs c s →
      execPut H (mkMgr bs c) s id data = (.ok n, s') →
      Reached H bs c s'

theorem goodHash_Hinj : GoodHash Hinj := by
  constructor
  · intro a b hab
    have h2 : 'h' :: List.replicate (Encodable.encode a) 'a'
        = 'h' :: List.replicate (Encodable.encode b) 'a' :=
      congrArg String.data hab
    have h3 := congrArg List.length h2
    simp only [List.length_cons, List.length_replicate] at h3
    exact Encodable.encode_injective (Nat.add_right_cancel h3)
  · intro d h
    have h2 : 'h' :: List.replicate (Encodable.encode d) 'a' = [] :=
      congrArg String.data h
    exact List.cons_ne_nil _ _ h2

/-! ## Association-list lemmas -/

theorem alookup_aset_self {α β : Type} [DecidableEq α] (l : List (α × β))
    (k : α) (v : β) : alookup (aset l k v) k = some v := by
  simp [aset, alookup]

theorem alookup_aerase_ne {α β : Type} [DecidableEq α] (l : List (α × β))
    {k k' : α} (h : k ≠ k') : alookup (aerase l k) k' = alookup l k' := by
  induction l with
  | nil => rfl
  | cons p t ih =>
    obtain ⟨a, b⟩ := p
    by_cases hak : a = k
    · subst hak
      simp only [aerase, if_pos rfl, alookup, if_neg h]
      exact ih
    · simp only [aerase, if_neg hak, alookup]
      by_cases hak' : a = k'
      · simp [hak']
      · simp only [if_neg hak']
        exact ih

theorem alookup_aset_ne {α β : Type} [DecidableEq α] (l : List (α × β))
    {k k' : α} (v : β) (h : k ≠ k') :
    alookup (aset l k v) k' = alookup l k' := by
  simp only [aset, alookup, if_neg h]
  exact alookup_aerase_ne l h

theorem mem_of_mem_aerase {α β : Type} [DecidableEq α] {l : List (α × β)}
    {k : α} {p : α × β} (h : p ∈ aerase l k) : p ∈ l := by
  induction l with
  | nil => simp [aerase] at h
  | cons q t ih =>
    obtain ⟨a, b⟩ := q
    by_cases hak : a = k
    · simp only [aerase, if_pos hak] at h
      exact List.mem_cons_of_mem _ (ih h)
    · simp only [aerase, if_neg hak] at h
      rcases List.mem_cons.mp h with h1 | h1
      · exact h1 ▸ List.mem_cons_self _ _
      · exact List.mem_cons_of_mem _ (ih h1)

theorem mem_aset {α β : Type} [DecidableEq α] {l : List (α × β)} {k : α}
    {v : β} {p : α × β} (h : p ∈ aset l k v) : p = (k, v) ∨ p ∈ l := by
  rcases List.mem_cons.mp h with h1 | h1
  · exact Or.inl h1
  · exact Or.inr (mem_of_mem_aerase h1)

theorem alookup_mem {α β : Type} [DecidableEq α] {l : List (α × β)} {k : α}
    {v : β} (h : alookup l k = some v) : (k, v) ∈ l := by
  induction l with
  | nil => simp [alookup] at h
  | cons p t ih =>
    obtain ⟨a, b⟩ := p
    by_cases hak : a = k
    · subst hak
      simp only [alookup, if_pos rfl] at h
      cases Option.some.inj h
      exact List.mem_cons_self _ _
    · simp only [alookup, if_neg hak] at h
      exact List.mem_cons_of_mem _ (ih h)

/-! ## The shape of the redis keys

Every key the manager ever writes is `next_blob`, `next_blob_index`,
`hashes`, `block:<id>` or `hash:<digest>`, and `str(block_id)` for a
numeric id is a pure digit string, so the `exists(block_id)` probe can
never hit any of them. -/

theorem digitChar_isDigit {n : Nat} (h : n < 10) :
    (Nat.digitChar n).isDigit = true := by
  interval_cases n <;> decide

theorem toDigitsCore_digits (fuel : Nat) :
    ∀ (n : Nat) (acc : List Char), (∀ c ∈ acc, c.isDigit = true) →
      ∀ c ∈ Nat.toDigitsCore 10 fuel n acc, c.isDigit = true := by
  induction fuel with
  | zero => intro n acc hacc c hc; simp only [Nat.toDigitsCore] at hc; exact hacc c hc
  | succ f ih =>
    intro n acc hacc c hc
    simp only [Nat.toDigitsCore] at hc
    split at hc
    · rcases List.mem_cons.mp hc with h1 | h1
      · subst h1; exact digitChar_isDigit (Nat.mod_lt _ (by decide))
      · exact hacc c h1
    · refine ih (n / 10) _ ?_ c hc
      intro d hd
      rcases List.mem_cons.mp hd with h1 | h1
      · subst h1; exact digitChar_isDigit (Nat.mod_lt _ (by decide))
      · exact hacc d h1

theorem repr_digits (n : Nat) : ∀ c ∈ (Nat.repr n).data, c.isDigit = true :=
  fun c hc => toDigitsCore_digits (n + 1) n [] (by simp) c hc

theorem repr_ne_of_mem {k : String} (c : Char) (hc : c ∈ k.data)
    (hd : c.isDigit = false) (n : Nat) : Nat.repr n ≠ k := by
  intro h
  have := repr_digits n c (h ▸ hc)
  rw [hd] at this
  exact Bool.false_ne_true this

theorem repr_ne_nb (n : Nat) : Nat.repr n ≠ "next_blob" :=
  repr_ne_of_mem 'n' (by decide) (by decide) n

theorem repr_ne_nbi (n : Nat) : Nat.repr n ≠ "next_blob_index" :=
  repr_ne_of_mem 'n' (by decide) (by decide) n

theorem repr_ne_hashes (n : Nat) : Nat.repr n ≠ "hashes" :=
  repr_ne_of_mem 'h' (by decide) (by decide) n

theorem repr_ne_blockKey (n : Nat) (t : String) :
    Nat.repr n ≠ "block:" ++ t :=
  repr_ne_of_mem 'b' (List.mem_cons_self _ _) (by decide) n

theorem repr_ne_hashKey (n : Nat) (t : String) : Nat.repr n ≠ "hash:" ++ t :=
  repr_ne_of_mem 'h' (List.mem_cons_self _ _) (by decide) n

theorem ne_of_data_head {s t : String} (c d : Char)
    (hc : s.data.head? = some c) (hd : t.data.head? = some d) (hne : c ≠ d) :
    s ≠ t := by
  intro h; rw [h, hd] at hc; exact hne (Option.some.inj hc).symm

theorem blockKey_ne_nb (t : String) : "block:" ++ t ≠ "next_blob" :=
  ne_of_data_head 'b' 'n' rfl rfl (by decide)

theorem blockKey_ne_nbi (t : String) : "block:" ++ t ≠ "next_blob_index" :=
  ne_of_data_head 'b' 'n' rfl rfl (by decide)

theorem blockKey_ne_hashes (t : String) : "block:" ++ t ≠ "hashes" :=
  ne_of_data_head 'b' 'h' rfl rfl (by decide)

theorem blockKey_ne_hashKey (t u : String) :
    "block:" ++ t ≠ "hash:" ++ u :=
  ne_of_data_head 'b' 'h' rfl rfl (by decide)

theorem hashKey_ne_nb (t : String) : "hash:" ++ t ≠ "next_blob" :=
  ne_of_data_head 'h' 'n' rfl rfl (by decide)

theorem hashKey_ne_nbi (t : String) : "hash:" ++ t ≠ "next_blob_index" :=
  ne_of_data_head 'h' 'n' rfl rfl (by decide)

theorem hashKey_ne_hashes (t : String) : "hash:" ++ t ≠ "hashes" := by
  intro h
  have h3 : (some ':' : Option Char) = some 'e' :=
    congrArg (fun s => s.data.get? 4) h
  exact absurd h3 (by decide)

theorem hashKey_inj {a b : String} (h : "hash:" ++ a = "hash:" ++ b) :
    a = b := by
  have h2 := congrArg String.data h
  rw [String.data_append, String.data_append] at h2
  exact String.ext (List.append_cancel_left h2)

/-- On a store holding only well-shaped keys, the bare-id probe
`self.redis_client.exists(block_id)` of `put_block` always misses. -/
theorem rexists_repr_eq_false {s : RStore}
    (hkeys : ∀ p ∈ s.kv, GoodKey p.1) (n : Nat) :
    rexists s (Nat.repr n) = false := by
  unfold rexists
  cases halook : alookup s.kv (Nat.repr n) with
  | none => rfl
  | some v =>
    exfalso
    rcases hkeys _ (alookup_mem halook) with h | h | h | ⟨t, h⟩ | ⟨t, h⟩
    · exact repr_ne_nb n h
    · exact repr_ne_nbi n h
    · exact repr_ne_hashes n h
    · exact repr_ne_blockKey n t h
    · exact repr_ne_hashKey n t h

/-! ## Read-after-write lemmas for the store operations -/

theorem setStr_files (s : RStore) (k v : String) :
    (setStr s k v).files = s.files := rfl

theorem setNum_files (s : RStore) (k : String) (n : Nat) :
    (setNum s k n).files = s.files := rfl

theorem alookup_setStr_self (s : RStore) (k v : String) :
    alookup (setStr s k v).kv k = some (.str v) :=
  alookup_aset_self _ _ _

theorem alookup_setStr_ne (s : RStore) {k k' : String} (v : String)
    (h : k ≠ k') : alookup (setStr s k v).kv k' = alookup s.kv k' :=
  alookup_aset_ne _ _ h

theorem alookup_setNum_self (s : RStore) (k : String) (n : Nat) :
    alookup (setNum s k n).kv k = some (.num n) :=
  alookup_aset_self _ _ _

theorem alookup_setNum_ne (s : RStore) {k k' : String} (n : Nat)
    (h : k ≠ k') : alookup (setNum s k n).kv k' = alookup s.kv k' :=
  alookup_aset_ne _ _ h

theorem incrNum_eq (s : RStore) {k : String} {n : Nat}
    (h : getNum? s k = some n) : incrNum s k = setNum s k (n + 1) := by
  simp [incrNum, h]

theorem sadd_files (s : RStore) (k h : String) :
    (sadd s k h).files = s.files := by
  unfold sadd
  cases alookup s.kv k with
  | none => rfl
  | some v => cases v <;> rfl

theorem alookup_sadd_ne (s : RStore) {k k' : String} (h : String)
    (hne : k ≠ k') : alookup (sadd s k h).kv k' = alookup s.kv k' := by
  unfold sadd
  cases alookup s.kv k with
  | none => exact alookup_aset_ne _ _ hne
  | some v => cases v <;> exact alookup_aset_ne _ _ hne

theorem sadd_self_isSet (s : RStore) (h : String) :
    ∃ hs, alookup (sadd s "hashes" h).kv "hashes" = some (.set hs) := by
  unfold sadd
  cases halook : alookup s.kv "hashes" with
  | none => exact ⟨[h], alookup_aset_self _ _ _⟩
  | some v =>
    cases v with
    | set hs => exact ⟨_, alookup_aset_self _ _ _⟩
    | str v => exact ⟨[h], alookup_aset_self _ _ _⟩
    | num n => exact ⟨[h], alookup_aset_self _ _ _⟩
    | list xs => exact ⟨[h], alookup_aset_self _ _ _⟩

theorem sismember_sadd_self (s : RStore) (h0 : String) :
    sismember (sadd s "hashes" h0) "hashes" h0 = true := by
  unfold sismember sadd
  cases halook : alookup s.kv "hashes" with
  | none => rw [alookup_aset_self]; simp [List.contains]
  | some v =>
    cases v with
    | set hs =>
      rw [alookup_aset_self]
      by_cases hc : hs.contains h0 = true
      · simp only [if_pos hc]; exact hc
      · simp only [if_neg hc]; simp [List.contains]
    | str v => rw [alookup_aset_self]; simp [List.contains]
    | num n => rw [alookup_aset_self]; simp [List.contains]
    | list xs => rw [alookup_aset_self]; simp [List.contains]

theorem sismember_sadd_ne (s : RStore) {h0 h : String} (hne : h ≠ h0) :
    sismember (sadd s "hashes" h0) "hashes" h = sismember s "hashes" h := by
  unfold sismember sadd
  cases halook : alookup s.kv "hashes" with
  | none => rw [alookup_aset_self]; simp [List.contains, hne]
  | some v =>
    cases v with
    | set hs =>
      rw [alookup_aset_self]
      by_cases hc : hs.contains h0 = true
      · simp only [if_pos hc]
      · simp only [if_neg hc]; simp [List.contains, hne]
    | str v => rw [alookup_aset_self]; simp [List.contains, hne]
    | num n => rw [alookup_aset_self]; simp [List.contains, hne]
    | list xs => rw [alookup_aset_self]; simp [List.contains, hne]

theorem rpush2_files (s : RStore) (k : String) (a b : Nat) :
    (rpush2 s k a b).files = s.files := by
  unfold rpush2
  cases alookup s.kv k with
  | none => rfl
  | some v => cases v <;> rfl

theorem alookup_rpush2_ne (s : RStore) {k k' : String} (a b : Nat)
    (hne : k ≠ k') : alookup (rpush2 s k a b).kv k' = alookup s.kv k' := by
  unfold rpush2
  cases alookup s.kv k with
  | none => exact alookup_aset_ne _ _ hne
  | some v => cases v <;> exact alookup_aset_ne _ _ hne

theorem alookup_rpush2_of_none (s : RStore) {k : String} (a b : Nat)
    (h : alookup s.kv k = none) :
    alookup (rpush2 s k a b).kv k = some (.list [a, b]) := by
  unfold rpush2
  rw [h]
  exact alookup_aset_self _ _ _

theorem fappend_kv (s : RStore) (b : Nat) (d : List Nat) :
    (fappend s b d).kv = s.kv := rfl

theorem alookup_fappend_self (s : RStore) (b : Nat) (d : List Nat) :
    alookup (fappend s b d).files b = some (fileOf s b ++ d) :=
  alookup_aset_self _ _ _

theorem alookup_fappend_ne (s : RStore) {b b' : Nat} (d : List Nat)
    (h : b ≠ b') : alookup (fappend s b d).files b' = alookup s.files b' :=
  alookup_aset_ne _ _ h

/-- `GoodKey` survives any single well-shaped binding. -/
theorem goodkeys_aset {kv : List (String × RVal)} {k : String} (v : RVal)
    (hkeys : ∀ p ∈ kv, GoodKey p.1) (hk : GoodKey k) :
    ∀ p ∈ aset kv k v, GoodKey p.1 := by
  intro p hp
  rcases mem_aset hp with h | h
  · rw [h]; exact hk
  · exact hkeys p h

/-! ## Characterizing `put_block` -/

theorem basePut_ok (bs c : Nat) (id : PyVal) (b : List Nat)
    (hlen : b.length = bs) :
    basePut (mkMgr bs c) id (.bytes b) = .ok () := by
  simp [basePut, mkMgr, pyLen?, pyNe, PyVal.isBytes, hlen]

theorem basePut_ok_inv {bs c : Nat} {id data : PyVal}
    (h : basePut (mkMgr bs c) id data = .ok ()) :
    ∃ b, data = .bytes b ∧ b.length = bs := by
  cases data with
  | bytes b =>
    refine ⟨b, rfl, ?_⟩
    simp only [basePut, mkMgr, pyLen?, pyNe] at h
    split at h
    · exact absurd h (by simp)
    · split at h
      · exact absurd h (by simp)
      · rename_i hne
        simpa using hne
  | u64 n => simp [basePut, pyLen?] at h; split at h <;> simp_all
  | u32 n => simp [basePut, pyLen?] at h; split at h <;> simp_all
  | int n => simp [basePut, pyLen?] at h; split at h <;> simp_all

theorem execPut_fast (H : List Nat → String) (bs c : Nat) (s : RStore)
    (id : PyVal) (b : List Nat) (hlen : b.length = bs)
    (hfresh : rexists s (pyStr id) = false)
    (hmem : sismember s "hashes" (H b) = true) :
    execPut H (mkMgr bs c) s id (.bytes b)
      = (.ok 0, setStr s ("block:" ++ pyStr id) (H b)) := by
  have hcl : (mkMgr bs c).client = true := rfl
  simp only [execPut]
  rw [basePut_ok bs c id b hlen]
  simp [hcl, hfresh, hmem]

theorem putToBlob_eq (bs c B I : Nat) (s : RStore) (id : PyVal)
    (b : List Nat) (h : String)
    (hB : getNum? s "next_blob" = some B)
    (hI : getNum? s "next_blob_index" = some I) :
    putToBlob (mkMgr bs c) s id b h
      = (.ok 0, slowPost s ("block:" ++ pyStr id) h b B I c) := by
  simp only [putToBlob, hB, hI, mkMgr, pyGe, slowPost, advCursor]
  by_cases hw : c ≤ I + 1
  · simp [hw]
  · simp [hw]

theorem execPut_slow (H : List Nat → String) (bs c B I : Nat) (s : RStore)
    (id : PyVal) (b : List Nat) (hlen : b.length = bs)
    (hfresh : rexists s (pyStr id) = false)
    (hmem : sismember s "hashes" (H b) = false)
    (hB : getNum? s "next_blob" = some B)
    (hI : getNum? s "next_blob_index" = some I) :
    execPut H (mkMgr bs c) s id (.bytes b)
      = (.ok 0, slowPost s ("block:" ++ pyStr id) (H b) b B I c) := by
  have hcl : (mkMgr bs c).client = true := rfl
  simp only [execPut]
  rw [basePut_ok bs c id b hlen]
  simp [hcl, hfresh, hmem, putToBlob_eq bs c B I s id b (H b) hB hI]

theorem execPut_ok_inv {H : List Nat → String} {bs c : Nat} {s : RStore}
    {id data : PyVal} {n : Int} {s' : RStore}
    (h : execPut H (mkMgr bs c) s id data = (.ok n, s')) :
    ∃ b, data = .bytes b ∧ b.length = bs ∧ n = 0 ∧
      rexists s (pyStr id) = false ∧
      ((sismember s "hashes" (H b) = true ∧
          s' = setStr s ("block:" ++ pyStr id) (H b)) ∨
        (sismember s "hashes" (H b) = false ∧ ∃ B I,
          getNum? s "next_blob" = some B ∧
          getNum? s "next_blob_index" = some I ∧
          s' = slowPost s ("block:" ++ pyStr id) (H b) b B I c)) := by
  simp only [execPut] at h
  cases hbp : basePut (mkMgr bs c) id data with
  | error e => rw [hbp] at h; simp at h
  | ok u =>
    cases u
    rw [hbp] at h
    obtain ⟨b, rfl, hlen⟩ := basePut_ok_inv hbp
    have hcl : (mkMgr bs c).client = true := rfl
    simp only [hcl, Bool.not_true] at h
    by_cases hfr : rexists s (pyStr id) = true
    · simp [hfr] at h
    · simp only [Bool.not_eq_true] at hfr
      simp only [hfr] at h
      by_cases hmem : sismember s "hashes" (H b) = true
      · simp only [hmem, if_true, if_false, Bool.false_eq_true] at h
        obtain ⟨h1, h2⟩ := Prod.mk.injEq .. ▸ h
        refine ⟨b, rfl, hlen, ?_, hfr, Or.inl ⟨hmem, h2.symm⟩⟩
        exact (Except.ok.inj h1).symm
      · simp only [Bool.not_eq_true] at hmem
        simp only [hmem, Bool.false_eq_true, if_false] at h
        cases hgB : getNum? s "next_blob" with
        | none => unfold putToBlob at h; rw [hgB] at h; simp at h
        | some B =>
          cases hgI : getNum? s "next_blob_index" with
          | none =>
            unfold putToBlob at h; rw [hgB, hgI] at h; simp at h
          | some I =>
            rw [putToBlob_eq bs c B I s id b (H b) hgB hgI] at h
            obtain ⟨h1, h2⟩ := Prod.mk.injEq .. ▸ h
            exact ⟨b, rfl, hlen, (Except.ok.inj h1).symm, hfr,
              Or.inr ⟨hmem, B, I, rfl, rfl, h2.symm⟩⟩

/-! ## Reading the state `_put_block_to_blob` leaves behind -/


theorem alookup_incrNum_ne (s : RStore) {k k' : String} (hne : k ≠ k') :
    alookup (incrNum s k).kv k' = alookup s.kv k' := by
  unfold incrNum
  cases getNum? s k with
  | none => exact alookup_aset_ne _ _ hne
  | some n => exact alookup_aset_ne _ _ hne

theorem incrNum_files (s : RStore) (k : String) :
    (incrNum s k).files = s.files := by
  unfold incrNum
  cases getNum? s k with
  | none => rfl
  | some n => rfl

theorem advCursor_files (s : RStore) (c I : Nat) :
    (advCursor s c I).files = s.files := by
  unfold advCursor
  by_cases hw : c ≤ I + 1
  · rw [if_pos hw, setNum_files, incrNum_files]
  · rw [if_neg hw, incrNum_files]

theorem advCursor_nb {s : RStore} {B : Nat} (c I : Nat)
    (hB : getNum? s "next_blob" = some B) :
    getNum? (advCursor s c I) "next_blob"
      = some (if c ≤ I + 1 then B + 1 else B) := by
  unfold advCursor
  by_cases hw : c ≤ I + 1
  · rw [if_pos hw, if_pos hw]
    unfold getNum?
    rw [alookup_setNum_ne _ _ (by decide), incrNum_eq s hB, alookup_setNum_self]
  · rw [if_neg hw, if_neg hw]
    unfold getNum?
    rw [alookup_incrNum_ne _ (by decide)]
    unfold getNum? at hB
    exact hB

theorem advCursor_nbi {s : RStore} {I : Nat} (c : Nat)
    (hI : getNum? s "next_blob_index" = some I) :
    getNum? (advCursor s c I) "next_blob_index"
      = some (if c ≤ I + 1 then 0 else I + 1) := by
  unfold advCursor
  by_cases hw : c ≤ I + 1
  · rw [if_pos hw, if_pos hw]
    unfold getNum?
    rw [alookup_setNum_self]
  · rw [if_neg hw, if_neg hw]
    rw [incrNum_eq s hI]
    unfold getNum?
    rw [alookup_setNum_self]

theorem alookup_advCursor_ne (s : RStore) (c I : Nat) {k : String}
    (h1 : "next_blob" ≠ k) (h2 : "next_blob_index" ≠ k) :
    alookup (advCursor s c I).kv k = alookup s.kv k := by
  unfold advCursor
  by_cases hw : c ≤ I + 1
  · rw [if_pos hw, alookup_setNum_ne _ _ h2, alookup_incrNum_ne _ h1]
  · rw [if_neg hw, alookup_incrNum_ne _ h2]



section SlowPost
variable (s : RStore) (t h0 : String) (b : List Nat) (B I c : Nat)

theorem goodKey_nb : GoodKey "next_blob" := Or.inl rfl
theorem goodKey_nbi : GoodKey "next_blob_index" := Or.inr (Or.inl rfl)
theorem goodKey_hashes : GoodKey "hashes" := Or.inr (Or.inr (Or.inl rfl))
theorem goodKey_blockKey (t : String) : GoodKey ("block:" ++ t) :=
  Or.inr (Or.inr (Or.inr (Or.inl ⟨t, rfl⟩)))
theorem goodKey_hashKey (t : String) : GoodKey ("hash:" ++ t) :=
  Or.inr (Or.inr (Or.inr (Or.inr ⟨t, rfl⟩)))

theorem sadd_kv_aset (k h : String) : ∃ v, (sadd s k h).kv = aset s.kv k v := by
  unfold sadd
  cases alookup s.kv k with
  | none => exact ⟨_, rfl⟩
  | some v => cases v <;> exact ⟨_, rfl⟩

theorem rpush2_kv_aset (k : String) (a b : Nat) :
    ∃ v, (rpush2 s k a b).kv = aset s.kv k v := by
  unfold rpush2
  cases alookup s.kv k with
  | none => exact ⟨_, rfl⟩
  | some v => cases v <;> exact ⟨_, rfl⟩

theorem incrNum_kv_aset (k : String) : ∃ v, (incrNum s k).kv = aset s.kv k v := by
  unfold incrNum
  cases getNum? s k with
  | none => exact ⟨_, rfl⟩
  | some n => exact ⟨_, rfl⟩

theorem slowPost_nb {B : Nat} (hB : getNum? s "next_blob" = some B) :
    getNum? (slowPost s ("block:" ++ t) h0 b B I c) "next_blob"
      = some (if c ≤ I + 1 then B + 1 else B) := by
  unfold slowPost getNum?
  rw [fappend_kv, alookup_rpush2_ne _ _ _ (hashKey_ne_nb h0),
    alookup_sadd_ne _ _ (by decide), alookup_setStr_ne _ _ (blockKey_ne_nb t)]
  have hadv := advCursor_nb c I hB
  unfold getNum? at hadv
  cases halook : alookup (advCursor s c I).kv "next_blob" with
  | none => rw [halook] at hadv; simp at hadv
  | some v => rw [halook] at hadv; cases v <;> simp_all

theorem slowPost_nbi {I : Nat} (hI : getNum? s "next_blob_index" = some I) :
    getNum? (slowPost s ("block:" ++ t) h0 b B I c) "next_blob_index"
      = some (if c ≤ I + 1 then 0 else I + 1) := by
  unfold slowPost getNum?
  rw [fappend_kv, alookup_rpush2_ne _ _ _ (hashKey_ne_nbi h0),
    alookup_sadd_ne _ _ (by decide), alookup_setStr_ne _ _ (blockKey_ne_nbi t)]
  have hadv := advCursor_nbi c hI
  unfold getNum? at hadv
  cases halook : alookup (advCursor s c I).kv "next_blob_index" with
  | none => rw [halook] at hadv; simp at hadv
  | some v => rw [halook] at hadv; cases v <;> simp_all

theorem slowPost_block_self :
    alookup (slowPost s ("block:" ++ t) h0 b B I c).kv ("block:" ++ t)
      = some (.str h0) := by
  unfold slowPost
  rw [fappend_kv, alookup_rpush2_ne _ _ _ (blockKey_ne_hashKey t h0).symm,
    alookup_sadd_ne _ _ (blockKey_ne_hashes t).symm, alookup_setStr_self]

theorem slowPost_block_ne {t' : String}
    (hne : "block:" ++ t ≠ "block:" ++ t') :
    alookup (slowPost s ("block:" ++ t) h0 b B I c).kv ("block:" ++ t')
      = alookup s.kv ("block:" ++ t') := by
  unfold slowPost
  rw [fappend_kv, alookup_rpush2_ne _ _ _ (blockKey_ne_hashKey t' h0).symm,
    alookup_sadd_ne _ _ (blockKey_ne_hashes t').symm,
    alookup_setStr_ne _ _ hne,
    alookup_advCursor_ne _ _ _ (blockKey_ne_nb t').symm (blockKey_ne_nbi t').symm]

theorem slowPost_memb_self :
    sismember (slowPost s ("block:" ++ t) h0 b B I c) "hashes" h0 = true := by
  unfold slowPost sismember
  rw [fappend_kv, alookup_rpush2_ne _ _ _ (hashKey_ne_hashes h0)]
  exact sismember_sadd_self _ h0

theorem slowPost_memb_ne {h : String} (hne : h ≠ h0) :
    sismember (slowPost s ("block:" ++ t) h0 b B I c) "hashes" h
      = sismember s "hashes" h := by
  have h1 : sismember (slowPost s ("block:" ++ t) h0 b B I c) "hashes" h
      = sismember (sadd (setStr (advCursor s c I) ("block:" ++ t) h0) "hashes" h0) "hashes" h := by
    unfold slowPost sismember
    rw [fappend_kv, alookup_rpush2_ne _ _ _ (hashKey_ne_hashes h0)]
  rw [h1, sismember_sadd_ne _ hne]
  unfold sismember
  rw [alookup_setStr_ne _ _ (blockKey_ne_hashes t),
    alookup_advCursor_ne _ _ _ (by decide) (by decide)]

theorem slowPost_hashKey_self
    (hnoneh : alookup s.kv ("hash:" ++ h0) = none) :
    alookup (slowPost s ("block:" ++ t) h0 b B I c).kv ("hash:" ++ h0)
      = some (.list [B, I]) := by
  unfold slowPost
  rw [fappend_kv]
  apply alookup_rpush2_of_none
  rw [alookup_sadd_ne _ _ (hashKey_ne_hashes h0).symm,
    alookup_setStr_ne _ _ (blockKey_ne_hashKey t h0),
    alookup_advCursor_ne _ _ _ (hashKey_ne_nb h0).symm (hashKey_ne_nbi h0).symm]
  exact hnoneh

theorem slowPost_hashKey_ne {h : String} (hne : h ≠ h0) :
    alookup (slowPost s ("block:" ++ t) h0 b B I c).kv ("hash:" ++ h)
      = alookup s.kv ("hash:" ++ h) := by
  unfold slowPost
  rw [fappend_kv,
    alookup_rpush2_ne _ _ _ (fun heq => hne (hashKey_inj heq).symm),
    alookup_sadd_ne _ _ (hashKey_ne_hashes h).symm,
    alookup_setStr_ne _ _ (blockKey_ne_hashKey t h),
    alookup_advCursor_ne _ _ _ (hashKey_ne_nb h).symm (hashKey_ne_nbi h).symm]

theorem slowPost_files_self :
    alookup (slowPost s ("block:" ++ t) h0 b B I c).files B
      = some (fileOf s B ++ b) := by
  unfold slowPost
  rw [alookup_fappend_self]
  unfold fileOf
  rw [rpush2_files, sadd_files, setStr_files, advCursor_files]

theorem slowPost_files_ne {b' : Nat} (hne : B ≠ b') :
    alookup (slowPost s ("block:" ++ t) h0 b B I c).files b'
      = alookup s.files b' := by
  unfold slowPost
  rw [alookup_fappend_ne _ _ hne, rpush2_files, sadd_files, setStr_files,
    advCursor_files]

theorem slowPost_setShape :
    ∃ hs, alookup (slowPost s ("block:" ++ t) h0 b B I c).kv "hashes"
      = some (.set hs) := by
  unfold slowPost
  rw [fappend_kv, alookup_rpush2_ne _ _ _ (hashKey_ne_hashes h0)]
  exact sadd_self_isSet _ h0

theorem slowPost_keys (hkeys : ∀ p ∈ s.kv, GoodKey p.1) :
    ∀ p ∈ (slowPost s ("block:" ++ t) h0 b B I c).kv, GoodKey p.1 := by
  unfold slowPost
  rw [fappend_kv]
  obtain ⟨v1, hv1⟩ := rpush2_kv_aset (sadd (setStr (advCursor s c I) ("block:" ++ t) h0) "hashes" h0) ("hash:" ++ h0) B I
  rw [hv1]
  apply goodkeys_aset _ _ (goodKey_hashKey h0)
  obtain ⟨v2, hv2⟩ := sadd_kv_aset (setStr (advCursor s c I) ("block:" ++ t) h0) "hashes" h0
  rw [hv2]
  apply goodkeys_aset _ _ goodKey_hashes
  show ∀ p ∈ aset (advCursor s c I).kv ("block:" ++ t) (.str h0), GoodKey p.1
  apply goodkeys_aset _ _ (goodKey_blockKey t)
  unfold advCursor
  by_cases hw : c ≤ I + 1
  · rw [if_pos hw]
    show ∀ p ∈ aset (incrNum s "next_blob").kv "next_blob_index" (.num 0), GoodKey p.1
    apply goodkeys_aset _ _ goodKey_nbi
    obtain ⟨v3, hv3⟩ := incrNum_kv_aset s "next_blob"
    rw [hv3]
    exact goodkeys_aset _ hkeys goodKey_nb
  · rw [if_neg hw]
    obtain ⟨v3, hv3⟩ := incrNum_kv_aset s "next_blob_index"
    rw [hv3]
    exact goodkeys_aset _ hkeys goodKey_nbi

end SlowPost

/-! ## Invariant preservation -/


theorem getNum?_congr {s' s : RStore} {k : String}
    (h : alookup s'.kv k = alookup s.kv k) : getNum? s' k = getNum? s k := by
  unfold getNum?; rw [h]

theorem sismember_congr {s' s : RStore} {k : String} (h0 : String)
    (h : alookup s'.kv k = alookup s.kv k) :
    sismember s' k h0 = sismember s k h0 := by
  unfold sismember; rw [h]

theorem fileOf_congr {s' s : RStore} {b : Nat}
    (h : alookup s'.files b = alookup s.files b) : fileOf s' b = fileOf s b := by
  unfold fileOf; rw [h]

theorem slice_append {bs i : Nat} {l l2 : List Nat}
    (h : bs * i + bs ≤ l.length) : slice bs i (l ++ l2) = slice bs i l := by
  unfold slice
  rw [List.drop_append_of_le_length (by omega)]
  rw [List.take_append_of_le_length]
  simp
  omega

/-- The *dedup fast path* (`SET block:<id> <hash>` only) preserves the
invariant at the same cursor. -/
theorem invAt_setStr {H : List Nat → String} {bs c B I : Nat} {s : RStore}
    (inv : InvAt H bs c B I s) (t h0 : String)
    (hmem : sismember s "hashes" h0 = true) :
    InvAt H bs c B I (setStr s ("block:" ++ t) h0) := by
  have hkv : ∀ k, "block:" ++ t ≠ k →
      alookup (setStr s ("block:" ++ t) h0).kv k = alookup s.kv k :=
    fun k hk => alookup_setStr_ne _ _ hk
  have hfiles : ∀ b, alookup (setStr s ("block:" ++ t) h0).files b
      = alookup s.files b := fun b => by rw [setStr_files]
  have hmm : ∀ h, sismember (setStr s ("block:" ++ t) h0) "hashes" h
      = sismember s "hashes" h :=
    fun h => sismember_congr h (hkv _ (blockKey_ne_hashes t))
  refine ⟨?_, ?_, inv.hIc, ?_, ?_, ?_, ?_, ?_, ?_, ?_, ?_⟩
  · rw [getNum?_congr (hkv _ (blockKey_ne_nb t))]; exact inv.hB
  · rw [getNum?_congr (hkv _ (blockKey_ne_nbi t))]; exact inv.hI
  · rw [fileOf_congr (hfiles B)]; exact inv.hcur
  · intro b hb; rw [fileOf_congr (hfiles b)]; exact inv.hfull b hb
  · intro b hb; rw [fileOf_congr (hfiles b)]; exact inv.hempty b hb
  · show ∀ p ∈ aset s.kv ("block:" ++ t) (.str h0), GoodKey p.1
    exact goodkeys_aset _ inv.hkeys (goodKey_blockKey t)
  · rw [hkv _ (blockKey_ne_hashes t)]; exact inv.hsetShape
  · intro h hh
    rw [hmm h] at hh
    obtain ⟨b2, i2, content, hl, hf, hic, hbound, hsl⟩ := inv.hloc h hh
    exact ⟨b2, i2, content, (hkv _ (blockKey_ne_hashKey t h)) ▸ hl,
      (hfiles b2) ▸ hf, hic, hbound, hsl⟩
  · intro h hh
    rw [hmm h] at hh
    rw [hkv _ (blockKey_ne_hashKey t h)]
    exact inv.hnone h hh
  · intro t' h hh
    rw [hmm h]
    by_cases hk : "block:" ++ t = "block:" ++ t'
    · rw [← hk, alookup_setStr_self] at hh
      cases RVal.str.inj (Option.some.inj hh)
      exact hmem
    · rw [hkv _ hk] at hh
      exact inv.hrec t' h hh



/-- Locations of previously stored hashes survive `_put_block_to_blob`
(with their original cursor bound). -/
theorem slowPost_loc_other {H : List Nat → String} {bs c B I : Nat}
    {s : RStore} (inv : InvAt H bs c B I s) (t : String) (d : List Nat)
    {h : String} (hne : h ≠ H d) (hh : sismember s "hashes" h = true) :
    ∃ b2 i2 content,
      alookup (slowPost s ("block:" ++ t) (H d) d B I c).kv ("hash:" ++ h)
        = some (.list [b2, i2]) ∧
      alookup (slowPost s ("block:" ++ t) (H d) d B I c).files b2
        = some content ∧
      i2 < c ∧ (b2 < B ∨ b2 = B ∧ i2 < I) ∧ H (slice bs i2 content) = h := by
  obtain ⟨b2, i2, content, hl, hf, hic, hbound, hsl⟩ := inv.hloc h hh
  have hl' : alookup (slowPost s ("block:" ++ t) (H d) d B I c).kv
      ("hash:" ++ h) = some (.list [b2, i2]) := by
    rw [slowPost_hashKey_ne s t (H d) d B I c hne]; exact hl
  by_cases hb2 : b2 = B
  · subst hb2
    have hcontent : fileOf s b2 = content := by unfold fileOf; rw [hf]; rfl
    have hi2I : i2 < I := by
      rcases hbound with hb | ⟨_, hi⟩
      · exact absurd hb (lt_irrefl _)
      · exact hi
    refine ⟨b2, i2, content ++ d, hl', ?_, hic, hbound, ?_⟩
    · rw [slowPost_files_self s t (H d) d b2 I c, hcontent]
    · rw [slice_append ?_]
      · exact hsl
      · have h1 : content.length = I * bs := by rw [← hcontent]; exact inv.hcur
        rw [h1]
        calc bs * i2 + bs = bs * (i2 + 1) := by ring
          _ ≤ bs * I := Nat.mul_le_mul_left bs hi2I
          _ = I * bs := Nat.mul_comm bs I
  · have hf' : alookup (slowPost s ("block:" ++ t) (H d) d B I c).files b2
        = some content := by
      rw [slowPost_files_ne s t (H d) d B I c (fun he => hb2 he.symm)]
      exact hf
    exact ⟨b2, i2, content, hl', hf', hic, hbound, hsl⟩



/-- The *allocation slow path* preserves the invariant, advancing the
cursor: wrap to `(B+1, 0)` when the blob is full, else step to `(B, I+1)`. -/
theorem invAt_slowPost {H : List Nat → String} {bs c B I : Nat} {s : RStore}
    (inv : InvAt H bs c B I s) (t : String) (d : List Nat)
    (hlen : d.length = bs) (hmem : sismember s "hashes" (H d) = false) :
    InvAt H bs c (if c ≤ I + 1 then B + 1 else B)
      (if c ≤ I + 1 then 0 else I + 1)
      (slowPost s ("block:" ++ t) (H d) d B I c) := by
  have hnone0 : alookup s.kv ("hash:" ++ H d) = none := inv.hnone _ hmem
  have hfB : fileOf (slowPost s ("block:" ++ t) (H d) d B I c) B
      = fileOf s B ++ d := by
    unfold fileOf; rw [slowPost_files_self s t (H d) d B I c]; rfl
  have hfne : ∀ b', B ≠ b' →
      fileOf (slowPost s ("block:" ++ t) (H d) d B I c) b' = fileOf s b' := by
    intro b' hb'
    unfold fileOf; rw [slowPost_files_ne s t (H d) d B I c hb']
  have hsliceNew : slice bs I (fileOf s B ++ d) = d := by
    unfold slice
    rw [List.drop_left' (by rw [inv.hcur]; ring), ← hlen, List.take_length]
  have hlocNew : alookup (slowPost s ("block:" ++ t) (H d) d B I c).kv
      ("hash:" ++ H d) = some (.list [B, I]) :=
    slowPost_hashKey_self s t (H d) d B I c hnone0
  have hfilesNewSome :
      alookup (slowPost s ("block:" ++ t) (H d) d B I c).files B
        = some (fileOf s B ++ d) := slowPost_files_self s t (H d) d B I c
  have hkeysP := slowPost_keys s t (H d) d B I c inv.hkeys
  have hsetP : alookup (slowPost s ("block:" ++ t) (H d) d B I c).kv "hashes"
        = none ∨
      ∃ hs, alookup (slowPost s ("block:" ++ t) (H d) d B I c).kv "hashes"
        = some (.set hs) :=
    Or.inr (slowPost_setShape s t (H d) d B I c)
  have hnoneP : ∀ h,
      sismember (slowPost s ("block:" ++ t) (H d) d B I c) "hashes" h = false →
      alookup (slowPost s ("block:" ++ t) (H d) d B I c).kv ("hash:" ++ h)
        = none := by
    intro h hh
    by_cases hhh : h = H d
    · subst hhh
      rw [slowPost_memb_self s t (H d) d B I c] at hh
      exact absurd hh (by simp)
    · rw [slowPost_memb_ne s t (H d) d B I c hhh] at hh
      rw [slowPost_hashKey_ne s t (H d) d B I c hhh]
      exact inv.hnone h hh
  have hrecP : ∀ t' h,
      alookup (slowPost s ("block:" ++ t) (H d) d B I c).kv ("block:" ++ t')
        = some (.str h) →
      sismember (slowPost s ("block:" ++ t) (H d) d B I c) "hashes" h
        = true := by
    intro t' h hh
    by_cases hk : "block:" ++ t = "block:" ++ t'
    · rw [← hk, slowPost_block_self s t (H d) d B I c] at hh
      cases RVal.str.inj (Option.some.inj hh)
      exact slowPost_memb_self s t (H d) d B I c
    · rw [slowPost_block_ne s t (H d) d B I c hk] at hh
      have hold := inv.hrec t' h hh
      by_cases hhh : h = H d
      · subst hhh; exact slowPost_memb_self s t (H d) d B I c
      · rw [slowPost_memb_ne s t (H d) d B I c hhh]; exact hold
  have hlocP : ∀ h,
      sismember (slowPost s ("block:" ++ t) (H d) d B I c) "hashes" h = true →
      ∃ b2 i2 content,
        alookup (slowPost s ("block:" ++ t) (H d) d B I c).kv ("hash:" ++ h)
          = some (.list [b2, i2]) ∧
        alookup (slowPost s ("block:" ++ t) (H d) d B I c).files b2
          = some content ∧
        i2 < c ∧ ((b2 < B ∨ b2 = B ∧ i2 < I) ∨ b2 = B ∧ i2 = I) ∧
        H (slice bs i2 content) = h := by
    intro h hh
    by_cases hhh : h = H d
    · subst hhh
      exact ⟨B, I, fileOf s B ++ d, hlocNew, hfilesNewSome, inv.hIc,
        Or.inr ⟨rfl, rfl⟩, by rw [hsliceNew]⟩
    · rw [slowPost_memb_ne s t (H d) d B I c hhh] at hh
      obtain ⟨b2, i2, content, h1, h2, h3, h4, h5⟩ :=
        slowPost_loc_other inv t d hhh hh
      exact ⟨b2, i2, content, h1, h2, h3, Or.inl h4, h5⟩
  by_cases hw : c ≤ I + 1
  · rw [if_pos hw, if_pos hw]
    refine ⟨?_, ?_, ?_, ?_, ?_, ?_, hkeysP, hsetP, ?_, hnoneP, hrecP⟩
    · rw [slowPost_nb s t (H d) d I c inv.hB, if_pos hw]
    · rw [slowPost_nbi s t (H d) d B c inv.hI, if_pos hw]
    · exact Nat.lt_of_le_of_lt (Nat.zero_le I) inv.hIc
    · rw [hfne (B + 1) (by omega), Nat.zero_mul]
      exact inv.hempty (B + 1) (by omega)
    · intro b hb
      by_cases hbB : b = B
      · subst hbB
        rw [hfB, List.length_append, inv.hcur, hlen]
        have hc : c = I + 1 := by have := inv.hIc; omega
        rw [hc, Nat.succ_mul]
      · rw [hfne b (fun he => hbB he.symm)]
        exact inv.hfull b (by omega)
    · intro b hb
      rw [hfne b (by omega)]
      exact inv.hempty b (by omega)
    · intro h hh
      obtain ⟨b2, i2, content, h1, h2, h3, h4, h5⟩ := hlocP h hh
      refine ⟨b2, i2, content, h1, h2, h3, Or.inl ?_, h5⟩
      rcases h4 with (hb | ⟨hb, _⟩) | ⟨hb, _⟩ <;> omega
  · rw [if_neg hw, if_neg hw]
    refine ⟨?_, ?_, ?_, ?_, ?_, ?_, hkeysP, hsetP, ?_, hnoneP, hrecP⟩
    · rw [slowPost_nb s t (H d) d I c inv.hB, if_neg hw]
    · rw [slowPost_nbi s t (H d) d B c inv.hI, if_neg hw]
    · omega
    · rw [hfB, List.length_append, inv.hcur, hlen, Nat.succ_mul]
    · intro b hb
      rw [hfne b (by omega)]
      exact inv.hfull b hb
    · intro b hb
      rw [hfne b (by omega)]
      exact inv.hempty b (by omega)
    · intro h hh
      obtain ⟨b2, i2, content, h1, h2, h3, h4, h5⟩ := hlocP h hh
      refine ⟨b2, i2, content, h1, h2, h3, ?_, h5⟩
      rcases h4 with (hb | ⟨hb, hi⟩) | ⟨hb, hi⟩
      · exact Or.inl hb
      · exact Or.inr ⟨hb, by omega⟩
      · exact Or.inr ⟨hb, by omega⟩

/-! ## Reachability implies the invariant -/


/-- Lookups of non-cursor keys miss in the store `init` leaves behind. -/
theorem alookup_initStore_ne {k : String} (h1 : "next_blob" ≠ k)
    (h2 : "next_blob_index" ≠ k) : alookup initStore.kv k = none := by
  show alookup [("next_blob_index", RVal.num 0), ("next_blob", RVal.num 0)] k
    = none
  unfold alookup
  rw [if_neg h2]
  unfold alookup
  rw [if_neg h1]
  rfl

/-- The invariant holds right after `init` (empty keyspace apart from the
`(0,0)` cursor, no blob files). -/
theorem invAt_initStore (H : List Nat → String) (bs c : Nat) (hc : 1 ≤ c) :
    InvAt H bs c 0 0 initStore := by
  have hmm : ∀ h, sismember initStore "hashes" h = false := by
    intro h; rfl
  refine ⟨rfl, rfl, hc, ?_, ?_, ?_, ?_, Or.inl rfl, ?_, ?_, ?_⟩
  · show (fileOf initStore 0).length = 0 * bs
    rw [Nat.zero_mul]
    rfl
  · intro b hb; omega
  · intro b hb; rfl
  · intro p hp
    rcases List.mem_cons.mp hp with h | h
    · rw [h]; exact goodKey_nbi
    · rcases List.mem_cons.mp h with h | h
      · rw [h]; exact goodKey_nb
      · simp at h
  · intro h hh
    rw [hmm h] at hh
    exact absurd hh (by simp)
  · intro h hh
    exact alookup_initStore_ne (hashKey_ne_nb h).symm (hashKey_ne_nbi h).symm
  · intro t h hh
    rw [alookup_initStore_ne (blockKey_ne_nb t).symm
      (blockKey_ne_nbi t).symm] at hh
    exact absurd hh (by simp)

/-- Every reachable store satisfies the invariant at some cursor. -/
theorem reached_inv {H : List Nat → String} {bs c : Nat} {s : RStore}
    (hc : 1 ≤ c) (hr : Reached H bs c s) : Inv H bs c s := by
  induction hr with
  | base => exact ⟨0, 0, invAt_initStore H bs c hc⟩
  | step hr hput ih =>
    obtain ⟨B, I, inv⟩ := ih
    obtain ⟨b, rfl, hlen, rfl, hfresh, hcase⟩ := execPut_ok_inv hput
    rcases hcase with ⟨hmem, rfl⟩ | ⟨hmem, B', I', hB', hI', rfl⟩
    · exact ⟨B, I, invAt_setStr inv (pyStr _) (H b) hmem⟩
    · have hBB : B' = B := by
        rw [inv.hB] at hB'; exact (Option.some.inj hB').symm
      have hII : I' = I := by
        rw [inv.hI] at hI'; exact (Option.some.inj hI').symm
      subst hBB; subst hII
      exact ⟨_, _, invAt_slowPost inv (pyStr _) b hlen hmem⟩

/-! ## The round trip -/


/-- Evaluating `get_block` once the block record, the location list and the
blob file are known: it returns `0` and appends the `block_size`-byte slice
at the recorded slot to the output buffer. -/
theorem execGet_spec (bs c : Nat) (s : RStore) (id : Nat) (ob : List Nat)
    {h : String} (hrec : alookup s.kv ("block:" ++ Nat.repr id) = some (.str h))
    (hne : h ≠ "") {b2 i2 : Nat}
    (hl : alookup s.kv ("hash:" ++ h) = some (.list [b2, i2]))
    {content : List Nat} (hf : alookup s.files b2 = some content) :
    execGet (mkMgr bs c) s (.u64 id) (.bytes ob)
      = (.ok 0, .bytes (ob ++ slice bs i2 content)) := by
  have hcl : (mkMgr bs c).client = true := rfl
  unfold execGet
  rw [show baseGet (.u64 id) (.bytes ob) = .ok () from rfl]
  simp only [hcl, Bool.not_true, Bool.false_eq_true, if_false]
  rw [show pyStr (.u64 id) = Nat.repr id from rfl]
  rw [hrec]
  simp only [if_neg hne, lindex?]
  rw [hl]
  simp only [List.get?]
  rw [hf]
  rfl



/-- The round-trip core: on an invariant store, after any successful
`put_block(uint64 id, data)` — fast or slow path — `get_block` on an empty
buffer returns exactly `data`, provided the hasher is collision-free and
never falsy. -/
theorem execGet_after_put {H : List Nat → String} {bs c B I : Nat}
    {s : RStore} (hH : GoodHash H) (inv : InvAt H bs c B I s) (id : Nat)
    (d : List Nat) (hlen : d.length = bs) {s' : RStore}
    (hput : execPut H (mkMgr bs c) s (.u64 id) (.bytes d) = (.ok 0, s')) :
    execGet (mkMgr bs c) s' (.u64 id) (.bytes []) = (.ok 0, .bytes d) := by
  obtain ⟨b, hb, hlenb, _, hfresh, hcase⟩ := execPut_ok_inv hput
  cases PyVal.bytes.inj hb
  have hkey : pyStr (PyVal.u64 id) = Nat.repr id := rfl
  have hne : H d ≠ "" := hH.2 d
  rcases hcase with ⟨hmem, rfl⟩ | ⟨hmem, B', I', hB', hI', rfl⟩
  · -- dedup fast path
    obtain ⟨b2, i2, content, hl, hf, _, _, hsl⟩ := inv.hloc (H d) hmem
    have hrec' : alookup (setStr s ("block:" ++ pyStr (PyVal.u64 id)) (H d)).kv
        ("block:" ++ Nat.repr id) = some (.str (H d)) := by
      rw [← hkey]; exact alookup_setStr_self _ _ _
    have hl' : alookup (setStr s ("block:" ++ pyStr (PyVal.u64 id)) (H d)).kv
        ("hash:" ++ H d) = some (.list [b2, i2]) := by
      rw [hkey, alookup_setStr_ne _ _ (blockKey_ne_hashKey _ (H d))]
      exact hl
    have hf' : alookup (setStr s ("block:" ++ pyStr (PyVal.u64 id)) (H d)).files
        b2 = some content := by
      rw [setStr_files]; exact hf
    rw [execGet_spec bs c _ id [] hrec' hne hl' hf']
    have hsl' : slice bs i2 content = d := hH.1 (by rw [hsl])
    rw [hsl', List.nil_append]
  · -- allocation slow path
    have hBB : B' = B := by rw [inv.hB] at hB'; exact (Option.some.inj hB').symm
    have hII : I' = I := by rw [inv.hI] at hI'; exact (Option.some.inj hI').symm
    subst hBB; subst hII
    have hnone0 : alookup s.kv ("hash:" ++ H d) = none := inv.hnone _ hmem
    have hrec' : alookup (slowPost s ("block:" ++ pyStr (PyVal.u64 id)) (H d) d
        B' I' c).kv ("block:" ++ Nat.repr id) = some (.str (H d)) := by
      rw [← hkey]; exact slowPost_block_self s _ (H d) d B' I' c
    have hl' : alookup (slowPost s ("block:" ++ pyStr (PyVal.u64 id)) (H d) d
        B' I' c).kv ("hash:" ++ H d) = some (.list [B', I']) :=
      slowPost_hashKey_self s _ (H d) d B' I' c hnone0
    have hf' : alookup (slowPost s ("block:" ++ pyStr (PyVal.u64 id)) (H d) d
        B' I' c).files B' = some (fileOf s B' ++ d) :=
      slowPost_files_self s _ (H d) d B' I' c
    rw [execGet_spec bs c _ id [] hrec' hne hl' hf']
    have hsl : slice bs I' (fileOf s B' ++ d) = d := by
      unfold slice
      rw [List.drop_left' (by rw [inv.hcur]; ring), ← hlen, List.take_length]
    rw [hsl, List.nil_append]

/-! ## The claims -/


/-- On an invariant store, `put_block` of a correctly sized payload under a
`uint64` id always succeeds (the duplicate probe can never fire: it checks
the bare decimal key, which is never written). -/
theorem execPut_succeeds {H : List Nat → String} {bs c B I : Nat}
    {s : RStore} (inv : InvAt H bs c B I s) (id : Nat) (d : List Nat)
    (hlen : d.length = bs) :
    ∃ s', execPut H (mkMgr bs c) s (.u64 id) (.bytes d) = (.ok 0, s') := by
  have hfresh : rexists s (pyStr (.u64 id)) = false :=
    rexists_repr_eq_false inv.hkeys id
  by_cases hmem : sismember s "hashes" (H d) = true
  · exact ⟨_, execPut_fast H bs c s _ d hlen hfresh hmem⟩
  · exact ⟨_, execPut_slow H bs c B I s _ d hlen hfresh
      (by simpa using hmem) inv.hB inv.hI⟩

/-- C1: round trip.  For every valid `(block_id, data)` with
`len(data) = block_size`, on an initialized store (any store reachable from
`init` by successful puts) `put_block(uint64 id, data)` succeeds and a
following `get_block(uint64 id, out)` on an initially empty buffer returns
`0` with `out = data`; the proof covers both the allocation slow path and
the dedup fast path (the two branches of `execPut`), assuming the hasher is
collision-free and never falsy. -/
theorem C1_round_trip (H : List Nat → String) (bs c : Nat) (s : RStore)
    (id : Nat) (d : List Nat) (hH : GoodHash H) (hc : 1 ≤ c)
    (hs : Reached H bs c s) (hlen : d.length = bs) :
    ∃ s', execPut H (mkMgr bs c) s (.u64 id) (.bytes d) = (.ok 0, s') ∧
      execGet (mkMgr bs c) s' (.u64 id) (.bytes []) = (.ok 0, .bytes d) := by
  obtain ⟨B, I, inv⟩ := reached_inv hc hs
  obtain ⟨s', hput⟩ := execPut_succeeds inv id d hlen
  exact ⟨s', hput, execGet_after_put hH inv id d hlen hput⟩

/-- Witness for C1 at `H = Hinj`, `block_size = 2`, `blob_capacity = 2`,
the store `init` leaves behind, `block_id = 1`, `data = [5, 6]`. -/
theorem C1_round_trip_witness :
    GoodHash Hinj ∧ (1 ≤ 2 ∧ ([5, 6] : List Nat).length = 2) ∧
    ∃ s', execPut Hinj (mkMgr 2 2) initStore (.u64 1) (.bytes [5, 6])
        = (.ok 0, s') ∧
      execGet (mkMgr 2 2) s' (.u64 1) (.bytes []) = (.ok 0, .bytes [5, 6]) :=
  ⟨goodHash_Hinj, ⟨by decide, rfl⟩,
    C1_round_trip Hinj 2 2 initStore 1 [5, 6] goodHash_Hinj (by decide)
      Reached.base rfl⟩

/-- C10: calls before `init`.  On a manager whose `redis_client` attribute
was never created (`init` has not completed), every `put_block` and every
`get_block` — for arbitrary ids, payloads and output buffers — raises (no
`ok` outcome) before any metadata or blob-file write: the store and the
output buffer are returned unchanged.  The failure comes from the missing
`self.block_size` / `self.redis_client` attributes or from argument
validation, all of which precede any write. -/
theorem C10_uninitialized (H : List Nat → String) (m : Manager)
    (hcl : m.client = false) (s : RStore) (id data out : PyVal) :
    isOk (execPut H m s id data).1 = false ∧ (execPut H m s id data).2 = s ∧
      isOk (execGet m s id out).1 = false ∧ (execGet m s id out).2 = out := by
  refine ⟨?_, ?_, ?_, ?_⟩
  · unfold execPut
    cases basePut m id data with
    | error e => rfl
    | ok u => cases u; simp [hcl, isOk]
  · unfold execPut
    cases basePut m id data with
    | error e => rfl
    | ok u => cases u; simp [hcl]
  · unfold execGet
    cases baseGet id out with
    | error e => rfl
    | ok u => cases u; simp [hcl, isOk]
  · unfold execGet
    cases baseGet id out with
    | error e => rfl
    | ok u => cases u; simp [hcl]

/-- Witness for C10 on a freshly constructed manager. -/
theorem C10_uninitialized_witness :
    freshMgr.client = false ∧
    (isOk (execPut Hdemo freshMgr initStore (.u64 1) (.bytes [1])).1 = false ∧
      (execPut Hdemo freshMgr initStore (.u64 1) (.bytes [1])).2 = initStore ∧
      isOk (execGet freshMgr initStore (.u64 1) (.bytes [])).1 = false ∧
      (execGet freshMgr initStore (.u64 1) (.bytes [])).2 = .bytes []) :=
  ⟨rfl, C10_uninitialized Hdemo freshMgr rfl initStore (.u64 1) (.bytes [1])
    (.bytes [])⟩



/-- C7: allocation bounds.  In every reachable state of an initialized
store with `blob_capacity ≥ 1`: the cursor's slot index is `< blob_capacity`;
every slot index stored in a `hash:<digest>` location list is
`< blob_capacity`; a successful slow-path put from cursor `(B, I)` records
location `(B, I)` and, when it fills the last slot (`I + 1 = blob_capacity`),
advances the cursor to `(B + 1, 0)`.  Concretely, with `block_size = 8` and
`blob_capacity = 2`, the third distinct content is located at
`(blob 1, slot 0)`. -/
theorem C7_slot_bounds :
    (∀ (H : List Nat → String) (bs c : Nat), 1 ≤ c → ∀ s, Reached H bs c s →
      ∃ B I, getNum? s "next_blob" = some B ∧
        getNum? s "next_blob_index" = some I ∧ I < c ∧
        (∀ h b i, alookup s.kv ("hash:" ++ h) = some (.list [b, i]) → i < c) ∧
        (∀ id d s', d.length = bs → sismember s "hashes" (H d) = false →
          execPut H (mkMgr bs c) s (.u64 id) (.bytes d) = (.ok 0, s') →
          alookup s'.kv ("hash:" ++ H d) = some (.list [B, I]) ∧
          (I + 1 = c → getNum? s' "next_blob" = some (B + 1) ∧
            getNum? s' "next_blob_index" = some 0))) ∧
    alookup ((execPut Hdemo (mkMgr 8 2)
        ((execPut Hdemo (mkMgr 8 2)
          ((execPut Hdemo (mkMgr 8 2) initStore
            (.u64 1) (.bytes (List.replicate 8 1))).2)
          (.u64 2) (.bytes (List.replicate 8 2))).2)
        (.u64 3) (.bytes (List.replicate 8 3))).2).kv
      ("hash:" ++ Hdemo (List.replicate 8 3)) = some (.list [1, 0]) := by
  constructor
  · intro H bs c hc s hr
    obtain ⟨B, I, inv⟩ := reached_inv hc hr
    refine ⟨B, I, inv.hB, inv.hI, inv.hIc, ?_, ?_⟩
    · intro h b i hl
      by_cases hmem : sismember s "hashes" h = true
      · obtain ⟨b2, i2, content, hl2, _, hic, _, _⟩ := inv.hloc h hmem
        rw [hl] at hl2
        have h2 := RVal.list.inj (Option.some.inj hl2)
        simp only [List.cons.injEq, and_true] at h2
        rw [h2.2]
        exact hic
      · have hn := inv.hnone h (by simpa using hmem)
        rw [hl] at hn
        simp at hn
    · intro id d s' hlen hmem hput
      have h9 := execPut_slow H bs c B I s (.u64 id) d hlen
        (rexists_repr_eq_false inv.hkeys id) hmem inv.hB inv.hI
      rw [hput] at h9
      have hs' := congrArg Prod.snd h9
      simp only at hs'
      subst hs'
      refine ⟨slowPost_hashKey_self s _ (H d) d B I c (inv.hnone _ hmem), ?_⟩
      intro hIc1
      have hle : c ≤ I + 1 := by omega
      constructor
      · rw [slowPost_nb s _ (H d) d I c inv.hB, if_pos hle]
      · rw [slowPost_nbi s _ (H d) d B c inv.hI, if_pos hle]
  · rfl

/-- Witness for C7's universally quantified part at `H = Hdemo`,
`block_size = 8`, `blob_capacity = 2`, on the store `init` leaves behind. -/
theorem C7_slot_bounds_witness :
    (1 : Nat) ≤ 2 ∧
    ∃ B I, getNum? initStore "next_blob" = some B ∧
      getNum? initStore "next_blob_index" = some I ∧ I < 2 ∧
      (∀ h b i, alookup initStore.kv ("hash:" ++ h) = some (.list [b, i]) →
        i < 2) ∧
      (∀ id d s', d.length = 8 →
        sismember initStore "hashes" (Hdemo d) = false →
        execPut Hdemo (mkMgr 8 2) initStore (.u64 id) (.bytes d)
          = (.ok 0, s') →
        alookup s'.kv ("hash:" ++ Hdemo d) = some (.list [B, I]) ∧
        (I + 1 = 2 → getNum? s' "next_blob" = some (B + 1) ∧
          getNum? s' "next_blob_index" = some 0)) :=
  ⟨by decide, C7_slot_bounds.1 Hdemo 8 2 (by decide) initStore Reached.base⟩



/-- C8: dedup identity.  From a freshly initialized store (which `init`
leaves empty), putting the same correctly sized `data` under two distinct
`uint64` ids succeeds twice; both block records map to the content hash
`H data`; that hash resolves to the single location `(0, 0)`; the
allocation cursor advances exactly once — the first call moves it off
`(0, 0)` and the second call leaves it unchanged — and the second call
touches no blob bytes (`files` unchanged). -/
theorem C8_dedup_identity (H : List Nat → String) (bs c : Nat)
    (i1 i2 : Nat) (d : List Nat) (hc : 1 ≤ c) (hlen : d.length = bs)
    (_hne : i1 ≠ i2) :
    ∃ s1 s2,
      execPut H (mkMgr bs c) initStore (.u64 i1) (.bytes d) = (.ok 0, s1) ∧
      execPut H (mkMgr bs c) s1 (.u64 i2) (.bytes d) = (.ok 0, s2) ∧
      alookup s2.kv ("block:" ++ Nat.repr i1) = some (.str (H d)) ∧
      alookup s2.kv ("block:" ++ Nat.repr i2) = some (.str (H d)) ∧
      alookup s2.kv ("hash:" ++ H d) = some (.list [0, 0]) ∧
      getNum? s1 "next_blob" = some (if c ≤ 1 then 1 else 0) ∧
      getNum? s1 "next_blob_index" = some (if c ≤ 1 then 0 else 1) ∧
      getNum? s2 "next_blob" = getNum? s1 "next_blob" ∧
      getNum? s2 "next_blob_index" = getNum? s1 "next_blob_index" ∧
      s2.files = s1.files := by
  have inv0 := invAt_initStore H bs c hc
  have hmem0 : sismember initStore "hashes" (H d) = false := rfl
  have hput1 := execPut_slow H bs c 0 0 initStore (.u64 i1) d hlen
    (rexists_repr_eq_false inv0.hkeys i1) hmem0 inv0.hB inv0.hI
  have inv1 := invAt_slowPost inv0 (pyStr (PyVal.u64 i1)) d hlen hmem0
  have hmem1 := slowPost_memb_self initStore (pyStr (PyVal.u64 i1)) (H d) d
    0 0 c
  have hput2 := execPut_fast H bs c _ (.u64 i2) d hlen
    (rexists_repr_eq_false inv1.hkeys i2) hmem1
  refine ⟨_, _, hput1, hput2, ?_, ?_, ?_, ?_, ?_, ?_, ?_, ?_⟩
  · -- record for i1 survives the second put
    by_cases hk : "block:" ++ pyStr (PyVal.u64 i2) = "block:" ++ Nat.repr i1
    · rw [← hk, alookup_setStr_self]
    · rw [alookup_setStr_ne _ _ hk]
      exact slowPost_block_self initStore _ (H d) d 0 0 c
  · rw [show pyStr (PyVal.u64 i2) = Nat.repr i2 from rfl, alookup_setStr_self]
  · rw [alookup_setStr_ne _ _ (blockKey_ne_hashKey _ (H d))]
    exact slowPost_hashKey_self initStore _ (H d) d 0 0 c
      (alookup_initStore_ne (hashKey_ne_nb _).symm (hashKey_ne_nbi _).symm)
  · rw [slowPost_nb initStore _ (H d) d 0 c inv0.hB]
  · rw [slowPost_nbi initStore _ (H d) d 0 c inv0.hI]
  · exact getNum?_congr (alookup_setStr_ne _ _ (blockKey_ne_nb _))
  · exact getNum?_congr (alookup_setStr_ne _ _ (blockKey_ne_nbi _))
  · rw [setStr_files]

/-- Witness for C8 at `H = Hdemo`, `block_size = 2`, `blob_capacity = 2`,
ids `1 ≠ 2`, `data = [4, 5]`. -/
theorem C8_dedup_identity_witness :
    ((1 : Nat) ≤ 2 ∧ ([4, 5] : List Nat).length = 2 ∧ (1 : Nat) ≠ 2) ∧
    ∃ s1 s2,
      execPut Hdemo (mkMgr 2 2) initStore (.u64 1) (.bytes [4, 5])
        = (.ok 0, s1) ∧
      execPut Hdemo (mkMgr 2 2) s1 (.u64 2) (.bytes [4, 5]) = (.ok 0, s2) ∧
      alookup s2.kv ("block:" ++ Nat.repr 1) = some (.str (Hdemo [4, 5])) ∧
      alookup s2.kv ("block:" ++ Nat.repr 2) = some (.str (Hdemo [4, 5])) ∧
      alookup s2.kv ("hash:" ++ Hdemo [4, 5]) = some (.list [0, 0]) ∧
      getNum? s1 "next_blob" = some (if 2 ≤ 1 then 1 else 0) ∧
      getNum? s1 "next_blob_index" = some (if 2 ≤ 1 then 0 else 1) ∧
      getNum? s2 "next_blob" = getNum? s1 "next_blob" ∧
      getNum? s2 "next_blob_index" = getNum? s1 "next_blob_index" ∧
      s2.files = s1.files :=
  ⟨⟨by decide, rfl, by decide⟩,
    C8_dedup_identity Hdemo 2 2 1 2 [4, 5] (by decide) rfl (by decide)⟩



/-- C2 (refuting the claim as stated): a second `put_block` with an
already-used `block_id` is *not* rejected.  `put_block` probes
`exists(block_id)` — the bare key `"1"` — while records live under
`"block:1"`, so the duplicate check never fires: the second call returns
`0` (not `AlreadyExists`), overwrites the `BlockRecord` for id `1` from
`Hdemo [7,7]` to `Hdemo [9,9]`, and advances the `AllocationCursor` from
blob `0` to blob `1`. -/
theorem C2_duplicate_id_not_rejected :
    (execPut Hdemo (mkMgr 2 2)
        ((execPut Hdemo (mkMgr 2 2) initStore (.u64 1) (.bytes [7, 7])).2)
        (.u64 1) (.bytes [9, 9])).1 = .ok 0 ∧
    alookup ((execPut Hdemo (mkMgr 2 2)
        ((execPut Hdemo (mkMgr 2 2) initStore (.u64 1) (.bytes [7, 7])).2)
        (.u64 1) (.bytes [9, 9])).2).kv ("block:" ++ Nat.repr 1)
      = some (.str (Hdemo [9, 9])) ∧
    Hdemo [9, 9] ≠ Hdemo [7, 7] ∧
    alookup ((execPut Hdemo (mkMgr 2 2) initStore
        (.u64 1) (.bytes [7, 7])).2).kv ("block:" ++ Nat.repr 1)
      = some (.str (Hdemo [7, 7])) ∧
    getNum? ((execPut Hdemo (mkMgr 2 2)
        ((execPut Hdemo (mkMgr 2 2) initStore (.u64 1) (.bytes [7, 7])).2)
        (.u64 1) (.bytes [9, 9])).2) "next_blob" = some 1 ∧
    getNum? ((execPut Hdemo (mkMgr 2 2) initStore
        (.u64 1) (.bytes [7, 7])).2) "next_blob" = some 0 :=
  ⟨rfl, rfl, by decide, rfl, rfl, rfl⟩

/-- C3 (refuting the claim as stated): `init` against a store already
holding a `BlockRecord`, `HashMembership`, a `HashLocation` and a `(5, 1)`
`AllocationCursor` returns `0` but — because of the
`flushall()  # REMOVE IT` line — deletes all of them and rewrites the
cursor to `(0, 0)` even though one existed. -/
theorem C3_init_wipes_existing_store :
    (execInit freshMgr
        ⟨[("block:1", .str "h77"), ("hashes", .set ["h77"]),
          ("hash:h77", .list [0, 0]), ("next_blob", .num 5),
          ("next_blob_index", .num 1)], [(0, [7, 7])]⟩
        (.u64 2) (.u32 2)).1 = .ok 0 ∧
    alookup ((execInit freshMgr
        ⟨[("block:1", .str "h77"), ("hashes", .set ["h77"]),
          ("hash:h77", .list [0, 0]), ("next_blob", .num 5),
          ("next_blob_index", .num 1)], [(0, [7, 7])]⟩
        (.u64 2) (.u32 2)).2.2).kv "block:1" = none ∧
    alookup ((execInit freshMgr
        ⟨[("block:1", .str "h77"), ("hashes", .set ["h77"]),
          ("hash:h77", .list [0, 0]), ("next_blob", .num 5),
          ("next_blob_index", .num 1)], [(0, [7, 7])]⟩
        (.u64 2) (.u32 2)).2.2).kv "hashes" = none ∧
    alookup ((execInit freshMgr
        ⟨[("block:1", .str "h77"), ("hashes", .set ["h77"]),
          ("hash:h77", .list [0, 0]), ("next_blob", .num 5),
          ("next_blob_index", .num 1)], [(0, [7, 7])]⟩
        (.u64 2) (.u32 2)).2.2).kv "hash:h77" = none ∧
    getNum? ((execInit freshMgr
        ⟨[("block:1", .str "h77"), ("hashes", .set ["h77"]),
          ("hash:h77", .list [0, 0]), ("next_blob", .num 5),
          ("next_blob_index", .num 1)], [(0, [7, 7])]⟩
        (.u64 2) (.u32 2)).2.2) "next_blob" = some 0 :=
  ⟨rfl, rfl, rfl, rfl, rfl⟩

/-- C4 (refuting the claim as stated): exceptions cross the public
boundary.  Because `@functools.wraps` is applied bare, decorating with
`@return_handler` returns the method unchanged (`wrapsDecorated f = f`), so
the `try/except` mapping is never installed: `get_block` on an unknown id
raises `KeyError` instead of returning a status code.  (Had the wrapper
been installed, `KeyError` would map to the catch-all `100`.) -/
theorem C4_exceptions_escape_the_boundary :
    get_block_deployed (mkMgr 8 2) initStore (.u64 7) (.bytes [])
      = (.error .keyError, .bytes []) ∧
    (∀ (f : Manager → RStore → PyVal → PyVal → Except PyErr Int × PyVal),
      wrapsDecorated f = f) ∧
    return_handler_map (.error .keyError) = 100 :=
  ⟨rfl, fun _ => rfl, rfl⟩

/-- C5 (refuting the claim as stated): validation uses `and` instead of
`or`, so a call with exactly one malformed argument passes.  `init` with a
plain-`int` `block_size` and a valid `uint32` `blob_capacity` returns `0`
(not `InvalidArgument`), stores the ill-typed configuration, and mutates
state (the flush deletes a pre-existing record); `put_block` with a
plain-`int` `block_id` and a valid `bytearray` also returns `0` and writes
a record. -/
theorem C5_single_bad_argument_accepted :
    (execInit freshMgr ⟨[("block:1", .str "h77")], []⟩
        (.int 4) (.u32 2)).1 = .ok 0 ∧
    (execInit freshMgr ⟨[("block:1", .str "h77")], []⟩
        (.int 4) (.u32 2)).2.1.block_size = some (.int 4) ∧
    alookup ((execInit freshMgr ⟨[("block:1", .str "h77")], []⟩
        (.int 4) (.u32 2)).2.2).kv "block:1" = none ∧
    (execPut Hdemo (mkMgr 2 2) initStore (.int 5) (.bytes [1, 2])).1
      = .ok 0 ∧
    alookup ((execPut Hdemo (mkMgr 2 2) initStore
        (.int 5) (.bytes [1, 2])).2).kv "block:5"
      = some (.str (Hdemo [1, 2])) :=
  ⟨rfl, rfl, rfl, rfl, rfl⟩

/-- C6 (refuting the claim as stated): `get_block` with a never-put
`block_id` does not return a `NotFound` status code: the raw body raises
`KeyError`, and since the decorator is a no-op the exception propagates to
the caller.  The output buffer is untouched (the store is read-only by
construction of `execGet`).  Even the intended wrapper maps `KeyError` to
the generic `100`, not the `3` the test suite expects for this case. -/
theorem C6_unknown_id_raises_keyerror :
    alookup initStore.kv ("block:" ++ Nat.repr 42) = none ∧
    execGet (mkMgr 8 2) initStore (.u64 42) (.bytes [])
      = (.error .keyError, .bytes []) ∧
    get_block_deployed (mkMgr 8 2) initStore (.u64 42) (.bytes [])
      = (.error .keyError, .bytes []) ∧
    return_handler_map (.error .keyError) = 100 ∧
    return_handler_map (.error .keyError) ≠ 3 :=
  ⟨rfl, rfl, rfl, rfl, by decide⟩

end BlobManager
